import Mathlib

/-!
Shallow embedding of the homectl room/sensor registry (src/data.rs) and the
BLE ingestion front end (src/bt.rs).

Modelling conventions:
* `Instant` (Rust monotonic clock) and `SystemTime` readings are modelled as
  integers counting seconds; `Duration::from_secs(n)` is the integer `n`.
  The source calls `Instant::now()` several times inside one loop iteration;
  the model uses a single time point `now` per iteration.
* Bytes (`u8`) are `Fin 256`; `f32` quantities (temperature, target
  temperature) are `ℚ`, with `x as f32 / 10.0` modelled as exact division
  by 10 (the involved integers are below 2^24, so the cast is exact).
* Fallible or panicking code returns `Option`/`Except`: the out-of-bounds
  index in the history trim loop and the `unimplemented!()` panic of the
  actuator dispatcher are the `none`/`error` cases.
-/

namespace Homectl

/-- Reading produced by the codec, mirroring `TPSensorData` in src/data.rs:
`address: String`, `temperature: f32`, `humidity: u8`. -/
structure TPSensorData where
  address : String
  temperature : ℚ
  humidity : Fin 256
  deriving DecidableEq, Repr

/-- Actuator mode, mirroring `HeatingState`: `Manual(u8)` power level 0-6,
`Auto(f32)` target temperature. -/
inductive HeatingState where
  | Manual : Fin 256 → HeatingState
  | Auto : ℚ → HeatingState
  deriving DecidableEq, Repr

/-- Heating actuator, mirroring `HeatingActor`: HTTP endpoint plus mode. -/
structure HeatingActor where
  address : String
  state : HeatingState
  deriving DecidableEq, Repr

/-- History entry, mirroring `SensorHistoryItem`: a reading plus the
monotonic timestamp at which it was merged. -/
structure SensorHistoryItem where
  data : TPSensorData
  timestamp : ℤ
  deriving DecidableEq, Repr

/-- Room record, mirroring `Room` in src/data.rs. `sensor_ttl` is the
liveness deadline (`Option<Instant>`, marked `#[serde(skip)]`), `sensor`
the current reading, `sensor_history` the bounded time series. -/
structure Room where
  name : String
  sensor_address : String
  sensor_ttl : Option ℤ
  sensor : Option TPSensorData
  sensor_history : List SensorHistoryItem
  actor : Option HeatingActor
  deriving DecidableEq, Repr

/-! ## Payload codec (src/bt.rs lines 119-130) -/

/-- Unsigned little-endian 16-bit value of two bytes, as the source computes
it: `data[3] as i32 + data[4] as i32 * 256` (both operands are `u8` widened
to `i32`, so the sum is in 0..65535 and never negative). -/
def unsigned16le (b0 b1 : Fin 256) : ℕ := b0.val + b1.val * 256

/-- Signed little-endian 16-bit value of two bytes. This follows the SPEC's
words (`int16_little_endian(bytes[3], bytes[4])`), for comparison with the
source's `unsigned16le`; it is not what the source computes. -/
def int16le (b0 b1 : Fin 256) : ℤ :=
  let v : ℕ := b0.val + b1.val * 256
  if v < 32768 then (v : ℤ) else (v : ℤ) - 65536

/-- Codec from src/bt.rs: payloads shorter than 6 bytes are rejected
(`continue`); otherwise `temp = (data[3] as i32 + data[4] as i32 * 256) as
f32 / 10.0` and `humidity = data[5]`. -/
def decodeNotification (addr : String) (data : List (Fin 256)) :
    Option TPSensorData :=
  if data.length < 6 then none
  else some
    { address := addr
      temperature := (unsigned16le (data.getD 3 0) (data.getD 4 0) : ℚ) / 10
      humidity := data.getD 5 0 }

/-- Temperature the spec's sentence assigns to a payload: the signed 16-bit
little-endian value of bytes 3 and 4, divided by 10. -/
def specTemperature (b0 b1 : Fin 256) : ℚ := (int16le b0 b1 : ℚ) / 10

/-! ## Discovery transport filter (src/bt.rs lines 82-91) -/

/-- Transport modes of the discovery filter. -/
inductive DiscoveryTransport where
  | Le | BrEdr | Auto
  deriving DecidableEq, Repr

/-- Transport selection from src/bt.rs: `if le_only { Le } else if
br_edr_only { BrEdr } else { Auto }`. -/
def discoveryTransport (le_only br_edr_only : Bool) : DiscoveryTransport :=
  if le_only then .Le else if br_edr_only then .BrEdr else .Auto

/-! ## Room registry merge and sweep (src/data.rs, update_rooms) -/

/-- Retention window of the history, `Duration::from_secs(24 * 60 * 60)`. -/
def history_len : ℤ := 24 * 60 * 60

/-- Liveness extension granted by a merge, `Duration::from_secs(300)`. -/
def ttl_secs : ℤ := 300

/-- Trim loop from src/data.rs lines 216-218: `while
sensor_history[0].timestamp < now - history_len { remove(0) }`. Indexing
`[0]` on an empty vector panics, modelled by `none`. -/
def trimHistory (cutoff : ℤ) : List SensorHistoryItem →
    Option (List SensorHistoryItem)
  | [] => none
  | h :: t => if h.timestamp < cutoff then trimHistory cutoff t
              else some (h :: t)

/-- Merge of a reading into the room found by address (src/data.rs lines
211-219): set `sensor`, append a history entry stamped `now`, trim the
front of the history against `now - history_len`, refresh the deadline to
`now + 300`. -/
def updateRoom (now : ℤ) (s : TPSensorData) (r : Room) : Option Room :=
  (trimHistory (now - history_len)
      (r.sensor_history ++ [⟨s, now⟩])).map fun h =>
    { r with sensor := some s, sensor_history := h,
             sensor_ttl := some (now + ttl_secs) }

/-- Ad-hoc room appended for an unrecognized address (src/data.rs lines
221-228). -/
def adHocRoom (now : ℤ) (s : TPSensorData) : Room :=
  { name := s.address
    sensor_address := s.address
    sensor_ttl := some (now + ttl_secs)
    sensor := some s
    sensor_history := []
    actor := none }

/-- Merge dispatch from src/data.rs lines 207-229: `iter_mut().find` locates
the first room whose `sensor_address` equals the reading's address and
updates it; with no match a fresh ad-hoc room is pushed at the end. -/
def mergeReading (now : ℤ) (s : TPSensorData) : List Room →
    Option (List Room)
  | [] => some [adHocRoom now s]
  | r :: rest =>
    if r.sensor_address = s.address then (updateRoom now s r).map (· :: rest)
    else (mergeReading now s rest).map (r :: ·)

/-- Stale-sensor sweep of one room (src/data.rs lines 232-239): when a
deadline is set and `Instant::now() > ttl`, clear `sensor` and
`sensor_ttl`; otherwise leave the room alone. -/
def sweepRoom (now : ℤ) (r : Room) : Room :=
  match r.sensor_ttl with
  | some t => if t < now then { r with sensor := none, sensor_ttl := none }
              else r
  | none => r

/-- Sweep over the whole registry. -/
def sweepRooms (now : ℤ) (rooms : List Room) : List Room :=
  rooms.map (sweepRoom now)

/-- One iteration of the `update_rooms` consumer loop for a received
reading: merge, then sweep every room. -/
def processReading (now : ℤ) (s : TPSensorData) (rooms : List Room) :
    Option (List Room) :=
  (mergeReading now s rooms).map (sweepRooms now)

/-- History timestamps in merge order are non-decreasing. -/
def histSorted (l : List SensorHistoryItem) : Prop :=
  l.Pairwise fun a b => a.timestamp ≤ b.timestamp

instance (l : List SensorHistoryItem) : Decidable (histSorted l) := by
  unfold histSorted; infer_instance

/-! ## Actuator dispatcher (src/data.rs, update_actors) -/

/-- Failure of a dispatch cycle. `notImplemented` models the
`unimplemented!()` panic reached for `HeatingState::Auto(_)`. -/
inductive DispatchError where
  | notImplemented
  deriving DecidableEq, Repr

/-- HTTP request prepared by the dispatcher: the actuator's URL with query
`turn=on&timer=<seconds>`. -/
structure ActorRequest where
  url : String
  turn : String
  timer : ℕ
  deriving DecidableEq, Repr

/-- Timer computation for `Manual(level)`: `level as u32 * 3600/6`. The
widening `u8 → u32` is exact and `255 * 3600 < 2^32`, so no wraparound. -/
def manualTimer (level : Fin 256) : ℕ := level.val * 3600 / 6

/-- Request collection of one dispatch cycle (src/data.rs lines 161-179):
rooms are scanned in order, each configured actuator in `Manual(level)`
mode contributes a `turn=on&timer=...` request, and `Auto(_)` hits
`unimplemented!()`, which aborts the whole cycle (modelled as `error`). -/
def collectRequests : List Room → Except DispatchError (List ActorRequest)
  | [] => .ok []
  | r :: rest =>
    match r.actor with
    | none => collectRequests rest
    | some a =>
      match a.state with
      | .Manual level =>
        (collectRequests rest).map
          (fun l => ⟨a.address, "on", manualTimer level⟩ :: l)
      | .Auto _ => .error .notImplemented

/-! ## Persistence (src/data.rs: serde attributes, approx_instant,
save_rooms_to_file / create_rooms) -/

/-- History entry as persisted: the timestamp is stored as an approximate
`SystemTime` (mod approx_instant). -/
structure StoredHistoryItem where
  data : TPSensorData
  timestamp : ℤ
  deriving DecidableEq, Repr

/-- Room document as persisted: every `Room` field except `sensor_ttl`,
which carries `#[serde(skip)]` and is skipped on save and defaulted to
`None` on load. -/
structure StoredRoom where
  name : String
  sensor_address : String
  sensor : Option TPSensorData
  sensor_history : List StoredHistoryItem
  actor : Option HeatingActor
  deriving DecidableEq, Repr

/-- Serialization side of `approx_instant`: `approx = system_now -
(instant_now - *instant)`. -/
def approxSerialize (system_now instant_now t : ℤ) : ℤ :=
  system_now - (instant_now - t)

/-- Deserialization side of `approx_instant`: `system_now.duration_since(de)`
fails when the stored value lies in the future of the loading clock, else
`approx = instant_now - duration`. -/
def approxDeserialize (system_now instant_now de : ℤ) : Except String ℤ :=
  if system_now < de then .error "second time provided was later"
  else .ok (instant_now - (system_now - de))

/-- Serialize one room at clock readings `sn` (SystemTime) and `inn`
(Instant): all fields pass through except `sensor_ttl` (skipped) and the
history timestamps (converted by `approxSerialize`). -/
def serializeRoom (sn inn : ℤ) (r : Room) : StoredRoom :=
  { name := r.name
    sensor_address := r.sensor_address
    sensor := r.sensor
    sensor_history :=
      r.sensor_history.map fun h => ⟨h.data, approxSerialize sn inn h.timestamp⟩
    actor := r.actor }

/-- Deserialize a stored history list; any failing timestamp conversion
fails the whole document, as serde does. -/
def deserializeHistory (sn inn : ℤ) : List StoredHistoryItem →
    Except String (List SensorHistoryItem)
  | [] => .ok []
  | h :: t => do
    let ts ← approxDeserialize sn inn h.timestamp
    let rest ← deserializeHistory sn inn t
    return ⟨h.data, ts⟩ :: rest

/-- Deserialize one room: `sensor_ttl` is reconstructed as `none` (serde
skip default), everything else passes through. -/
def deserializeRoom (sn inn : ℤ) (sr : StoredRoom) : Except String Room := do
  let hist ← deserializeHistory sn inn sr.sensor_history
  return { name := sr.name
           sensor_address := sr.sensor_address
           sensor_ttl := none
           sensor := sr.sensor
           sensor_history := hist
           actor := sr.actor }

/-- Persisted document for the whole registry (`save_rooms_to_file`). -/
def saveRooms (sn inn : ℤ) (rooms : List Room) : List StoredRoom :=
  rooms.map (serializeRoom sn inn)

/-- Reload of the persisted document (`create_rooms` success path). -/
def loadRooms (sn inn : ℤ) : List StoredRoom → Except String (List Room)
  | [] => .ok []
  | sr :: rest => do
    let r ← deserializeRoom sn inn sr
    let rs ← loadRooms sn inn rest
    return r :: rs

/-! ## Concrete fixtures used by witnesses and counterexamples -/

/-- Sample reading corresponding to payload bytes 0xE8 0x00 0x2C. -/
def sampleReading : TPSensorData := ⟨"addr", 232 / 10, 44⟩

/-- Room with an `Auto` actuator. -/
def autoRoom : Room := ⟨"R2", "", none, none, [], some ⟨"http://y", .Auto 21⟩⟩

/-- Room with a `Manual(3)` actuator. -/
def manualRoom3 : Room :=
  ⟨"R3", "", none, none, [], some ⟨"http://z", .Manual 3⟩⟩

/-- Room with a `Manual(0)` actuator. -/
def manualRoom0 : Room :=
  ⟨"R0", "", none, none, [], some ⟨"http://x", .Manual 0⟩⟩

/-- Empty room keyed by address `addr`. -/
def emptyRoom : Room := ⟨"W", "addr", none, none, [], none⟩

/-- Result of merging `sampleReading` into `emptyRoom` at time 0. -/
def mergedRoom : Room :=
  ⟨"W", "addr", some 300, some sampleReading, [⟨sampleReading, 0⟩], none⟩

/-- Room holding one history entry older than the retention window
relative to time 0. -/
def oldHistoryRoom : Room :=
  ⟨"O", "addr", none, none, [⟨sampleReading, -100000⟩], none⟩

/-- Result of merging `sampleReading` into `oldHistoryRoom` at time 0: the
stale entry is trimmed away. -/
def trimmedRoom : Room :=
  ⟨"O", "addr", some 300, some sampleReading, [⟨sampleReading, 0⟩], none⟩

/-! ## Helper lemmas -/

lemma trimHistory_isSome (c : ℤ) (l : List SensorHistoryItem)
    (h : ∃ x ∈ l, ¬ x.timestamp < c) : (trimHistory c l).isSome := by
  induction l with
  | nil => obtain ⟨x, hx, -⟩ := h; cases hx
  | cons a t ih =>
    obtain ⟨x, hx, hxc⟩ := h
    by_cases hac : a.timestamp < c
    · rcases List.mem_cons.mp hx with rfl | hx
      · exact absurd hac hxc
      · simp only [trimHistory, if_pos hac]
        exact ih ⟨x, hx, hxc⟩
    · simp [trimHistory, if_neg hac]

lemma updateRoom_isSome (now : ℤ) (s : TPSensorData) (r : Room) :
    (updateRoom now s r).isSome := by
  have h := trimHistory_isSome (now - history_len)
    (r.sensor_history ++ [⟨s, now⟩])
    ⟨⟨s, now⟩, List.mem_append_right _ (List.mem_singleton_self _),
     by simp only [history_len]; omega⟩
  obtain ⟨hist, hh⟩ := Option.isSome_iff_exists.mp h
  simp [updateRoom, hh]

lemma mergeReading_isSome (now : ℤ) (s : TPSensorData) (rooms : List Room) :
    (mergeReading now s rooms).isSome := by
  induction rooms with
  | nil => rfl
  | cons r0 rest ih =>
    by_cases haddr : r0.sensor_address = s.address
    · obtain ⟨ur, hur⟩ := Option.isSome_iff_exists.mp (updateRoom_isSome now s r0)
      simp [mergeReading, if_pos haddr, hur]
    · obtain ⟨rest', hrest⟩ := Option.isSome_iff_exists.mp ih
      simp [mergeReading, if_neg haddr, hrest]

lemma trimHistory_sublist (c : ℤ) :
    ∀ l l', trimHistory c l = some l' → l'.Sublist l := by
  intro l
  induction l with
  | nil => intro l' h; cases h
  | cons a t ih =>
    intro l' h
    by_cases hac : a.timestamp < c
    · simp only [trimHistory, if_pos hac] at h
      exact (ih l' h).cons a
    · simp only [trimHistory, if_neg hac] at h
      injection h with h
      subst h
      exact List.Sublist.refl _

lemma trimHistory_lower_bound (c : ℤ) :
    ∀ l l', trimHistory c l = some l' → histSorted l →
      ∀ x ∈ l', c ≤ x.timestamp := by
  intro l
  induction l with
  | nil => intro l' h; cases h
  | cons a t ih =>
    intro l' h hs x hx
    have hs' : histSorted t := (List.pairwise_cons.mp hs).2
    by_cases hac : a.timestamp < c
    · simp only [trimHistory, if_pos hac] at h
      exact ih l' h hs' x hx
    · simp only [trimHistory, if_neg hac] at h
      injection h with h
      subst h
      rcases List.mem_cons.mp hx with rfl | hx
      · exact not_lt.mp hac
      · exact le_trans (not_lt.mp hac) ((List.pairwise_cons.mp hs).1 x hx)

/-- Room with an elapsed liveness deadline relative to time 20. -/
def staleRoom : Room := ⟨"S", "a", some 10, some sampleReading, [], none⟩

/-- Result of sweeping `staleRoom` at time 20. -/
def staleRoomCleared : Room := ⟨"S", "a", none, none, [], none⟩

/-- Room exercising the persistence round trip: populated reading,
deadline, history and actuator. -/
def persistRoom : Room :=
  ⟨"P", "pa", some 42, some sampleReading, [⟨sampleReading, 7⟩],
   some ⟨"http://z", .Manual 3⟩⟩

lemma updateRoom_sensor {now : ℤ} {s : TPSensorData} {r ur : Room}
    (h : updateRoom now s r = some ur) : ur.sensor = some s := by
  unfold updateRoom at h
  cases htrim : trimHistory (now - history_len)
      (r.sensor_history ++ [⟨s, now⟩]) with
  | none => rw [htrim] at h; cases h
  | some hist =>
    rw [htrim, Option.map_some'] at h
    injection h with h
    subst h
    rfl

lemma deserializeHistory_ok (sn inn : ℤ) (l : List StoredHistoryItem)
    (h : ∀ x ∈ l, x.timestamp ≤ sn) :
    ∃ out, deserializeHistory sn inn l = .ok out := by
  induction l with
  | nil => exact ⟨[], rfl⟩
  | cons a t ih =>
    obtain ⟨out, hout⟩ := ih (fun x hx => h x (List.mem_cons_of_mem _ hx))
    have ha : ¬ sn < a.timestamp := not_lt.mpr (h a (List.mem_cons_self _ _))
    refine ⟨⟨a.data, inn - (sn - a.timestamp)⟩ :: out, ?_⟩
    simp only [deserializeHistory]
    rw [show approxDeserialize sn inn a.timestamp =
        .ok (inn - (sn - a.timestamp)) from by
      simp [approxDeserialize, if_neg ha], hout]
    rfl

lemma deserializeRoom_roundtrip (sn inn sn2 inn2 : ℤ) (r : Room)
    (h : ∀ x ∈ r.sensor_history, approxSerialize sn inn x.timestamp ≤ sn2) :
    ∃ r', deserializeRoom sn2 inn2 (serializeRoom sn inn r) = .ok r' ∧
      r'.name = r.name ∧ r'.sensor_address = r.sensor_address ∧
      r'.actor = r.actor ∧ r'.sensor = r.sensor ∧ r'.sensor_ttl = none := by
  obtain ⟨out, hout⟩ := deserializeHistory_ok sn2 inn2
    ((serializeRoom sn inn r).sensor_history)
    (by intro x hx
        obtain ⟨y, hy, rfl⟩ := List.mem_map.mp hx
        exact h y hy)
  refine ⟨{ name := r.name, sensor_address := r.sensor_address,
            sensor_ttl := none, sensor := r.sensor,
            sensor_history := out, actor := r.actor },
          ?_, rfl, rfl, rfl, rfl, rfl⟩
  simp only [deserializeRoom, hout]
  rfl

/-! ## Theorems -/

/-- C10: when both the `--le` and `--bredr` switches are supplied, the
discovery filter uses LE-only transport: the LE switch takes precedence
and the classic-only switch is ignored. -/
theorem le_switch_precedence :
    discoveryTransport true true = DiscoveryTransport.Le := rfl

/-- C1 counterexample: the codec does not use a signed 16-bit
interpretation. On payload `[0,0,0,0x00,0x80,0x00]` the code produces
temperature `3276.8` (`32768 / 10`), while the claim's signed reading
would be `-3276.8`, and the two differ. -/
theorem codec_signed_counterexample :
    (decodeNotification "A" [0, 0, 0, 0, 128, 0]).map TPSensorData.temperature
      = some ((32768 : ℚ) / 10) ∧
    specTemperature 0 128 = -((32768 : ℚ) / 10) ∧
    ((32768 : ℚ) / 10) ≠ -((32768 : ℚ) / 10) := by
  refine ⟨?_, ?_, by norm_num⟩
  · norm_num [decodeNotification, unsigned16le,
      show ((128 : Fin 256)).val = 128 from rfl,
      show ((0 : Fin 256)).val = 0 from rfl]
  · norm_num [specTemperature, int16le,
      show ((128 : Fin 256)).val = 128 from rfl,
      show ((0 : Fin 256)).val = 0 from rfl]

/-- C1 amended: for every payload of length at least 6 the codec produces a
reading whose temperature is the UNSIGNED little-endian 16-bit value of
bytes 3 and 4 divided by 10 (hence never negative), and whose humidity is
byte 5. -/
theorem codec_unsigned_temperature (addr : String) (data : List (Fin 256))
    (h : 6 ≤ data.length) :
    ∃ r, decodeNotification addr data = some r ∧
      r.address = addr ∧
      r.temperature = (unsigned16le (data.getD 3 0) (data.getD 4 0) : ℚ) / 10 ∧
      r.humidity = data.getD 5 0 ∧
      0 ≤ r.temperature := by
  unfold decodeNotification
  rw [if_neg (Nat.not_lt.mpr h)]
  refine ⟨_, rfl, rfl, rfl, rfl, ?_⟩
  have h10 : (0 : ℚ) ≤ 10 := by norm_num
  exact div_nonneg (by positivity) h10

/-- C1 witness: the spec's example payload `[_, _, _, 0xE8, 0x00, 0x2C]`
decodes to temperature 23.2 and humidity 44. -/
theorem codec_unsigned_temperature_witness :
    (∃ r, decodeNotification "addr" [0, 0, 0, 232, 0, 44] = some r ∧
      r.address = "addr" ∧
      r.temperature =
        (unsigned16le ((([0, 0, 0, 232, 0, 44] : List (Fin 256))).getD 3 0)
          ((([0, 0, 0, 232, 0, 44] : List (Fin 256))).getD 4 0) : ℚ) / 10 ∧
      r.humidity = (([0, 0, 0, 232, 0, 44] : List (Fin 256))).getD 5 0 ∧
      0 ≤ r.temperature) ∧
    decodeNotification "addr" [0, 0, 0, 232, 0, 44] = some sampleReading :=
  ⟨codec_unsigned_temperature "addr" [0, 0, 0, 232, 0, 44] (by decide),
   by norm_num [decodeNotification, unsigned16le, sampleReading,
      show ((232 : Fin 256)).val = 232 from rfl,
      show ((0 : Fin 256)).val = 0 from rfl]⟩

/-- C2 amended: a room whose actuator is in `Auto` mode makes the dispatch
cycle surface the defined not-implemented failure, and this failure is
fatal to the whole cycle: no request list is produced. -/
theorem auto_dispatch_not_implemented (rooms : List Room)
    (h : ∃ r ∈ rooms, ∃ a, r.actor = some a ∧ ∃ t, a.state = .Auto t) :
    collectRequests rooms = .error .notImplemented := by
  induction rooms with
  | nil => obtain ⟨r, hr, -⟩ := h; cases hr
  | cons r0 rest ih =>
    obtain ⟨r, hr, a, ha, t, ht⟩ := h
    rcases List.mem_cons.mp hr with rfl | hr
    · simp only [collectRequests, ha, ht]
    · have htail : collectRequests rest = .error .notImplemented :=
        ih ⟨r, hr, a, ha, t, ht⟩
      cases h0 : r0.actor with
      | none => simp only [collectRequests, h0]; exact htail
      | some a0 =>
        cases hs0 : a0.state with
        | Manual level =>
          simp only [collectRequests, h0, hs0, htail]; rfl
        | Auto tgt => simp only [collectRequests, h0, hs0]

/-- C2 witness: dispatching a registry holding one `Auto(21.0)` room
yields the not-implemented error. -/
theorem auto_dispatch_not_implemented_witness :
    collectRequests [autoRoom] = .error .notImplemented :=
  auto_dispatch_not_implemented [autoRoom]
    ⟨autoRoom, List.mem_singleton_self autoRoom,
     ⟨"http://y", .Auto 21⟩, rfl, 21, rfl⟩

/-- C2 counterexample: the failure is NOT contained to the `Auto` room.
With an `Auto` room followed by a `Manual(3)` room the cycle produces no
request at all, although the `Manual(3)` room alone would produce one:
the `unimplemented!()` panic crashes the whole dispatch loop. -/
theorem auto_dispatch_counterexample :
    collectRequests [autoRoom, manualRoom3] = .error .notImplemented ∧
    collectRequests [manualRoom3] =
      .ok [⟨"http://z", "on", 1800⟩] :=
  ⟨rfl, rfl⟩

/-- C6: whenever a dispatch cycle completes with request list `reqs`, every
room holding a `Manual(level)` actuator with `level ≤ 6` contributed a
`turn=on` request with `timer = level * 3600 / 6` seconds to `reqs` —
also when `level = 0` — and that timer equals `level * 600`. -/
theorem manual_dispatch_timer (rooms : List Room)
    (reqs : List ActorRequest) (h : collectRequests rooms = .ok reqs) :
    ∀ r ∈ rooms, ∀ a, r.actor = some a →
    ∀ level, a.state = .Manual level → level.val ≤ 6 →
      (⟨a.address, "on", level.val * 3600 / 6⟩ : ActorRequest) ∈ reqs ∧
      level.val * 3600 / 6 = level.val * 600 := by
  have htimer : ∀ level : Fin 256, level.val * 3600 / 6 = level.val * 600 := by
    intro level
    rw [show level.val * 3600 = level.val * 600 * 6 by ring]
    exact Nat.mul_div_cancel _ (by norm_num)
  induction rooms generalizing reqs with
  | nil => intro r hr; cases hr
  | cons r0 rest ih =>
    intro r hr a ha level hlvl hle
    rcases List.mem_cons.mp hr with rfl | hr
    · simp only [collectRequests, ha, hlvl] at h
      cases hrest : collectRequests rest with
      | error e => rw [hrest] at h; cases h
      | ok l =>
        rw [hrest] at h
        obtain rfl : ⟨a.address, "on", manualTimer level⟩ :: l = reqs :=
          by simpa [Except.map] using h
        exact ⟨List.mem_cons_self _ _, htimer level⟩
    · cases h0 : r0.actor with
      | none =>
        simp only [collectRequests, h0] at h
        exact ih reqs h r hr a ha level hlvl hle
      | some a0 =>
        cases hs0 : a0.state with
        | Manual lvl0 =>
          simp only [collectRequests, h0, hs0] at h
          cases hrest : collectRequests rest with
          | error e => rw [hrest] at h; cases h
          | ok l =>
            rw [hrest] at h
            obtain rfl : ⟨a0.address, "on", manualTimer lvl0⟩ :: l = reqs :=
              by simpa [Except.map] using h
            have := ih l hrest r hr a ha level hlvl hle
            exact ⟨List.mem_cons_of_mem _ this.1, this.2⟩
        | Auto tgt => simp only [collectRequests, h0, hs0] at h; cases h

/-- C6 witness: a registry with a `Manual(0)` room and a `Manual(3)` room;
the `Manual(0)` room still gets its request, with timer `0 * 3600 / 6 = 0`
seconds. -/
theorem manual_dispatch_timer_witness :
    ((⟨"http://x", "on", 0 * 3600 / 6⟩ : ActorRequest) ∈
      [(⟨"http://x", "on", 0⟩ : ActorRequest),
       (⟨"http://z", "on", 1800⟩ : ActorRequest)]) ∧
    0 * 3600 / 6 = 0 * 600 :=
  manual_dispatch_timer [manualRoom0, manualRoom3]
    [⟨"http://x", "on", 0⟩, ⟨"http://z", "on", 1800⟩] rfl
    manualRoom0 (List.mem_cons_self _ _) ⟨"http://x", .Manual 0⟩ rfl 0 rfl
    (by decide)

/-- C3: a merge at time `now` populates `sensor` and sets the liveness
deadline to `now + 300`; a later sweep at time `t` clears the reading
exactly when `t` exceeds `now + 300`, and never before. -/
theorem reading_liveness_transition (now t : ℤ) (s : TPSensorData)
    (r r' : Room) (h : updateRoom now s r = some r') :
    r'.sensor = some s ∧ r'.sensor_ttl = some (now + ttl_secs) ∧
    ((sweepRoom t r').sensor = none ↔ now + ttl_secs < t) := by
  unfold updateRoom at h
  cases htrim : trimHistory (now - history_len)
      (r.sensor_history ++ [⟨s, now⟩]) with
  | none => rw [htrim] at h; cases h
  | some hist =>
    rw [htrim, Option.map_some'] at h
    injection h with h
    subst h
    refine ⟨rfl, rfl, ?_⟩
    by_cases hlt : now + ttl_secs < t
    · simp [sweepRoom, hlt]
    · simp [sweepRoom, hlt]

/-- C3 witness: merging at time 0 gives deadline 300; sweeping at time 301
clears the reading (and 300 < 301). -/
theorem reading_liveness_transition_witness :
    mergedRoom.sensor = some sampleReading ∧
    mergedRoom.sensor_ttl = some (0 + ttl_secs) ∧
    ((sweepRoom 301 mergedRoom).sensor = none ↔ (0 : ℤ) + ttl_secs < 301) :=
  reading_liveness_transition 0 301 sampleReading emptyRoom mergedRoom rfl

/-- C5: a merge at time `now` into a room whose history is time-ordered
with all timestamps at most `now` yields a history that is still
time-ordered, contains no entry older than `now - 24h`, and has all
timestamps at most `now`. -/
theorem history_sorted_and_trimmed (now : ℤ) (s : TPSensorData)
    (r r' : Room) (hsorted : histSorted r.sensor_history)
    (hbound : ∀ x ∈ r.sensor_history, x.timestamp ≤ now)
    (h : updateRoom now s r = some r') :
    histSorted r'.sensor_history ∧
    ∀ x ∈ r'.sensor_history,
      now - history_len ≤ x.timestamp ∧ x.timestamp ≤ now := by
  unfold updateRoom at h
  cases htrim : trimHistory (now - history_len)
      (r.sensor_history ++ [⟨s, now⟩]) with
  | none => rw [htrim] at h; cases h
  | some hist =>
    rw [htrim, Option.map_some'] at h
    injection h with h
    subst h
    have happ : histSorted (r.sensor_history ++ [⟨s, now⟩]) := by
      unfold histSorted
      rw [List.pairwise_append]
      refine ⟨hsorted, List.pairwise_singleton _ _, ?_⟩
      intro x hx y hy
      rw [List.mem_singleton] at hy
      subst hy
      exact hbound x hx
    have hsub := trimHistory_sublist _ _ _ htrim
    refine ⟨List.Pairwise.sublist hsub happ, ?_⟩
    intro x hx
    refine ⟨trimHistory_lower_bound _ _ _ htrim happ x hx, ?_⟩
    rcases List.mem_append.mp (hsub.subset hx) with hmem | hmem
    · exact hbound x hmem
    · rw [List.mem_singleton] at hmem
      subst hmem
      exact le_refl now

/-- C5 witness: merging at time 0 into a room holding one entry stamped
-100000 (older than the 86400-second window) leaves a sorted history whose
single entry is stamped 0, within the window. -/
theorem history_sorted_and_trimmed_witness :
    histSorted trimmedRoom.sensor_history ∧
    ∀ x ∈ trimmedRoom.sensor_history,
      (0 : ℤ) - history_len ≤ x.timestamp ∧ x.timestamp ≤ 0 :=
  history_sorted_and_trimmed 0 sampleReading oldHistoryRoom trimmedRoom
    (by simp [histSorted, oldHistoryRoom])
    (by intro x hx
        simp only [oldHistoryRoom, List.mem_singleton] at hx
        subst hx
        show (-100000 : ℤ) ≤ 0
        norm_num)
    rfl

/-- C9: the history-trim loop never indexes an empty history. The entry
just appended is stamped `now` and never satisfies the older-than-24h
condition, so the trim (and with it the whole merge step) always returns a
value instead of the modelled panic. -/
theorem trim_never_panics (now : ℤ) (s : TPSensorData) (r : Room)
    (rooms : List Room) :
    (updateRoom now s r).isSome ∧ (processReading now s rooms).isSome := by
  refine ⟨updateRoom_isSome now s r, ?_⟩
  obtain ⟨out, hout⟩ :=
    Option.isSome_iff_exists.mp (mergeReading_isSome now s rooms)
  simp [processReading, hout]

/-- C4: in a merge at time `now` for reading `s`, when no room's
`sensor_address` matches, exactly one ad-hoc room is appended, named after
the address, carrying the reading, an empty history, deadline `now + 300`
and no actuator; when some room matches, the first matching room in
sequence order is updated in place (its `sensor` becomes the reading) and
the room count is unchanged. -/
theorem merge_first_match_or_append (now : ℤ) (s : TPSensorData)
    (rooms rooms' : List Room) (h : mergeReading now s rooms = some rooms') :
    ((∀ r ∈ rooms, r.sensor_address ≠ s.address) →
      ∃ R, rooms' = rooms ++ [R] ∧ R.name = s.address ∧
        R.sensor_address = s.address ∧ R.sensor = some s ∧
        R.sensor_history = [] ∧ R.sensor_ttl = some (now + ttl_secs) ∧
        R.actor = none) ∧
    (∀ (i : ℕ) (r : Room), rooms[i]? = some r → r.sensor_address = s.address →
      (∀ j, j < i → ∀ (rj : Room), rooms[j]? = some rj →
        rj.sensor_address ≠ s.address) →
      rooms'.length = rooms.length ∧
      ∃ ur, updateRoom now s r = some ur ∧ ur.sensor = some s ∧
        rooms' = rooms.set i ur) := by
  induction rooms generalizing rooms' with
  | nil =>
    simp only [mergeReading] at h
    injection h with h
    subst h
    constructor
    · intro _
      exact ⟨adHocRoom now s, rfl, rfl, rfl, rfl, rfl, rfl, rfl⟩
    · intro i r hi
      rw [List.getElem?_nil] at hi
      cases hi
  | cons r0 rest ih =>
    by_cases haddr : r0.sensor_address = s.address
    · simp only [mergeReading, if_pos haddr] at h
      cases hu : updateRoom now s r0 with
      | none => rw [hu] at h; cases h
      | some ur =>
        rw [hu, Option.map_some'] at h
        injection h with h
        subst h
        constructor
        · intro hall
          exact absurd haddr (hall r0 (List.mem_cons_self _ _))
        · intro i r hi hmatch hbefore
          cases i with
          | zero =>
            rw [List.getElem?_cons_zero] at hi
            injection hi with hi
            subst hi
            refine ⟨by simp, ur, hu, updateRoom_sensor hu, rfl⟩
          | succ n =>
            exact absurd haddr
              (hbefore 0 (Nat.succ_pos n) r0 List.getElem?_cons_zero)
    · simp only [mergeReading, if_neg haddr] at h
      cases hm : mergeReading now s rest with
      | none => rw [hm] at h; cases h
      | some rest' =>
        rw [hm, Option.map_some'] at h
        injection h with h
        subst h
        obtain ⟨ihA, ihB⟩ := ih rest' hm
        constructor
        · intro hall
          obtain ⟨R, hR, hfields⟩ :=
            ihA (fun r hr => hall r (List.mem_cons_of_mem _ hr))
          exact ⟨R, by rw [hR]; rfl, hfields⟩
        · intro i r hi hmatch hbefore
          cases i with
          | zero =>
            rw [List.getElem?_cons_zero] at hi
            injection hi with hi
            subst hi
            exact absurd hmatch haddr
          | succ n =>
            rw [List.getElem?_cons_succ] at hi
            have hbefore' : ∀ j, j < n → ∀ (rj : Room), rest[j]? = some rj →
                rj.sensor_address ≠ s.address := by
              intro j hj rj hrj
              refine hbefore (j + 1) (Nat.succ_lt_succ hj) rj ?_
              rw [List.getElem?_cons_succ]
              exact hrj
            obtain ⟨hlen, ur, hur, hsen, hset⟩ := ihB n r hi hmatch hbefore'
            refine ⟨by simp [hlen], ur, hur, hsen, ?_⟩
            rw [hset]
            rfl

/-- C4 witness: a reading for address "addr" merged into a one-room
registry whose room is keyed "addr" updates that room in place and leaves
the room count at one. -/
theorem merge_first_match_or_append_witness :
    [mergedRoom].length = [emptyRoom].length ∧
    ∃ ur, updateRoom 0 sampleReading emptyRoom = some ur ∧
      ur.sensor = some sampleReading ∧ [mergedRoom] = [emptyRoom].set 0 ur :=
  (merge_first_match_or_append 0 sampleReading [emptyRoom] [mergedRoom]
    rfl).2 0 emptyRoom rfl rfl
    (fun j hj => absurd hj (Nat.not_lt_zero j))

/-- C7: the sweep preserves the room count and, per room, the `name`,
`sensor_address`, `sensor_history` and `actor` fields; a room whose
deadline has elapsed gets exactly `sensor` and `sensor_ttl` cleared, and a
room whose deadline has not elapsed, or which has no deadline, is entirely
unchanged. -/
theorem sweep_frame (now : ℤ) (rooms : List Room) :
    (sweepRooms now rooms).length = rooms.length ∧
    ∀ (i : ℕ) (r r' : Room), rooms[i]? = some r → (sweepRooms now rooms)[i]? = some r' →
      r'.name = r.name ∧ r'.sensor_address = r.sensor_address ∧
      r'.sensor_history = r.sensor_history ∧ r'.actor = r.actor ∧
      (∀ t, r.sensor_ttl = some t →
        (t < now → r'.sensor = none ∧ r'.sensor_ttl = none) ∧
        (¬ t < now → r' = r)) ∧
      (r.sensor_ttl = none → r' = r) := by
  refine ⟨List.length_map _ _, ?_⟩
  intro i r r' hi hi'
  rw [sweepRooms, List.getElem?_map, hi, Option.map_some'] at hi'
  injection hi' with hi'
  subst hi'
  cases httl : r.sensor_ttl with
  | none =>
    have heq : sweepRoom now r = r := by simp [sweepRoom, httl]
    rw [heq]
    refine ⟨rfl, rfl, rfl, rfl, ?_, fun _ => rfl⟩
    intro t ht
    exact Option.noConfusion ht
  | some t0 =>
    by_cases hlt : t0 < now
    · have heq : sweepRoom now r =
          { r with sensor := none, sensor_ttl := none } := by
        simp [sweepRoom, httl, hlt]
      rw [heq]
      refine ⟨rfl, rfl, rfl, rfl, ?_, ?_⟩
      · intro t ht
        injection ht with ht
        subst ht
        exact ⟨fun _ => ⟨rfl, rfl⟩, fun hc => absurd hlt hc⟩
      · intro hc
        exact Option.noConfusion hc
    · have heq : sweepRoom now r = r := by simp [sweepRoom, httl, hlt]
      rw [heq]
      refine ⟨rfl, rfl, rfl, rfl, ?_, fun _ => rfl⟩
      intro t ht
      injection ht with ht
      subst ht
      exact ⟨fun hcon => absurd hcon hlt, fun _ => rfl⟩

/-- C7 witness: sweeping at time 20 a room whose deadline 10 has elapsed
clears exactly its reading and deadline while keeping name, address,
history and actuator. -/
theorem sweep_frame_witness :
    staleRoomCleared.name = staleRoom.name ∧
    staleRoomCleared.sensor_address = staleRoom.sensor_address ∧
    staleRoomCleared.sensor_history = staleRoom.sensor_history ∧
    staleRoomCleared.actor = staleRoom.actor ∧
    (∀ t, staleRoom.sensor_ttl = some t →
      (t < 20 → staleRoomCleared.sensor = none ∧
        staleRoomCleared.sensor_ttl = none) ∧
      (¬ t < 20 → staleRoomCleared = staleRoom)) ∧
    (staleRoom.sensor_ttl = none → staleRoomCleared = staleRoom) :=
  (sweep_frame 20 [staleRoom]).2 0 staleRoom staleRoomCleared rfl rfl

/-- C8: saving the registry and loading it back succeeds whenever no
stored timestamp lies in the future of the loading clock, preserves the
room count and every room's `name`, `sensor_address` and `actor` (endpoint
and mode) exactly, also carries `sensor` through unchanged, and
reconstructs `sensor_ttl` as `none` (the `serde(skip)` default) — in
particular the reload is a defined result, not a crash. -/
theorem persist_roundtrip (sn inn sn2 inn2 : ℤ) (rooms : List Room)
    (h : ∀ r ∈ rooms, ∀ x ∈ r.sensor_history,
      approxSerialize sn inn x.timestamp ≤ sn2) :
    ∃ rooms', loadRooms sn2 inn2 (saveRooms sn inn rooms) = .ok rooms' ∧
      rooms'.length = rooms.length ∧
      ∀ (i : ℕ) (r r' : Room), rooms[i]? = some r → rooms'[i]? = some r' →
        r'.name = r.name ∧ r'.sensor_address = r.sensor_address ∧
        r'.actor = r.actor ∧ r'.sensor = r.sensor ∧
        r'.sensor_ttl = none := by
  induction rooms with
  | nil =>
    refine ⟨[], rfl, rfl, ?_⟩
    intro i r r' hi
    rw [List.getElem?_nil] at hi
    cases hi
  | cons r0 rest ih =>
    obtain ⟨r0', h0, hfields⟩ := deserializeRoom_roundtrip sn inn sn2 inn2 r0
      (h r0 (List.mem_cons_self _ _))
    obtain ⟨rest', hrest, hlen, hidx⟩ :=
      ih (fun r hr => h r (List.mem_cons_of_mem _ hr))
    refine ⟨r0' :: rest', ?_, by simp [hlen], ?_⟩
    · show loadRooms sn2 inn2 (saveRooms sn inn (r0 :: rest)) =
        .ok (r0' :: rest')
      simp only [saveRooms, List.map_cons] at hrest ⊢
      simp only [loadRooms, h0, hrest]
      rfl
    · intro i r r' hi hi'
      cases i with
      | zero =>
        rw [List.getElem?_cons_zero] at hi hi'
        injection hi with hi
        injection hi' with hi'
        subst hi
        subst hi'
        exact hfields
      | succ n =>
        rw [List.getElem?_cons_succ] at hi hi'
        exact hidx n r r' hi hi'

/-- C8 witness: a room with a reading, a deadline, one history entry and a
`Manual(3)` actuator survives the save/load round trip with name, address,
actuator and reading intact and its deadline reset to `none`. -/
theorem persist_roundtrip_witness :
    ∃ rooms', loadRooms 2000 60 (saveRooms 1000 50 [persistRoom]) =
        .ok rooms' ∧
      rooms'.length = [persistRoom].length ∧
      ∀ (i : ℕ) (r r' : Room), [persistRoom][i]? = some r → rooms'[i]? = some r' →
        r'.name = r.name ∧ r'.sensor_address = r.sensor_address ∧
        r'.actor = r.actor ∧ r'.sensor = r.sensor ∧
        r'.sensor_ttl = none :=
  persist_roundtrip 1000 50 2000 60 [persistRoom]
    (by intro r hr x hx
        rw [List.mem_singleton] at hr
        subst hr
        simp only [persistRoom, List.mem_singleton] at hx
        subst hx
        show (1000 : ℤ) - (50 - 7) ≤ 2000
        norm_num)

end Homectl
